import Mathlib

/-!
Verification of the ensemble-building subsystem of autoPyTorch
(`autoPyTorch/ensemble/ensemble_builder.py`).

This file shallowly embeds the parts of `EnsembleBuilder` that the verified
properties talk about:

* `_get_list_of_sorted_preds` (sorting cached loss records),
* `get_n_best_preds` (candidate selection: baseline filter, nbest count,
  disk budget, performance-range pruning),
* `_delete_excess_models` (disk reclamation),
* the memory-exception degradation step of `run`,
* the fingerprint check of `fit_ensemble`,
* the `read_at_most` accounting of `compute_loss_per_model`.

Python floats are modelled as exact rationals; losses can additionally be
`np.inf` (the code initialises `ens_loss` to `np.inf` and resets it to
`np.inf` on read failure and on deletion), so a loss is `ℚ ∪ {+∞}`.  The
performance-range step performs float arithmetic whose operands can be
infinite, so for that step we use a four-valued IEEE-style domain with
`-∞` and `NaN` and IEEE comparison semantics (comparisons with `NaN` are
false).  File paths matching `MODEL_FN_RE` are modelled as structured keys
carrying the three regex groups `(seed, num_run, budget)` plus a tag that
distinguishes distinct file names with equal groups.
-/

namespace EnsembleBuilder

/-- A cached ensemble loss: a finite float or `np.inf`. -/
inductive Loss where
  | fin (q : ℚ)
  | inf
deriving DecidableEq, Repr

namespace Loss

/-- Strict `<` on losses (`np.inf` compares as IEEE `+∞`). -/
def ltb : Loss → Loss → Bool
  | .fin a, .fin b => decide (a < b)
  | .fin _, .inf => true
  | .inf, _ => false

/-- Non-strict `<=` on losses. -/
def leb : Loss → Loss → Bool
  | .fin a, .fin b => decide (a ≤ b)
  | .fin _, .inf => true
  | .inf, .fin _ => false
  | .inf, .inf => true

/-- Interpretation of a loss in the linear order `WithTop ℚ` (for proofs). -/
def toWT : Loss → WithTop ℚ
  | .fin q => (q : WithTop ℚ)
  | .inf => ⊤

end Loss

/-- IEEE-style float domain used by the performance-range arithmetic
(`worst_loss -= (worst_loss - best_loss) * threshold`), where operands can
be `±∞` and intermediate results `NaN`. -/
inductive F where
  | nan
  | ninf
  | fin (q : ℚ)
  | inf
deriving DecidableEq, Repr

namespace F

/-- IEEE subtraction (exact on finite values). -/
def sub : F → F → F
  | .nan, _ => .nan
  | _, .nan => .nan
  | .inf, .inf => .nan
  | .inf, _ => .inf
  | .ninf, .ninf => .nan
  | .ninf, _ => .ninf
  | .fin _, .inf => .ninf
  | .fin _, .ninf => .inf
  | .fin a, .fin b => .fin (a - b)

/-- IEEE multiplication by a finite scalar. -/
def mulQ : F → ℚ → F
  | .nan, _ => .nan
  | .inf, t => if 0 < t then .inf else if t < 0 then .ninf else .nan
  | .ninf, t => if 0 < t then .ninf else if t < 0 then .inf else .nan
  | .fin a, t => .fin (a * t)

/-- IEEE `<`: any comparison involving `NaN` is false. -/
def ltb : F → F → Bool
  | .nan, _ => false
  | _, .nan => false
  | .ninf, .ninf => false
  | .ninf, _ => true
  | _, .ninf => false
  | .inf, _ => false
  | .fin _, .inf => true
  | .fin a, .fin b => decide (a < b)

/-- IEEE `<=`: any comparison involving `NaN` is false. -/
def leb : F → F → Bool
  | .nan, _ => false
  | _, .nan => false
  | .ninf, _ => true
  | _, .ninf => false
  | _, .inf => true
  | .inf, .fin _ => false
  | .fin a, .fin b => decide (a ≤ b)

end F

/-- Injection of a cached loss into the IEEE domain. -/
def Loss.toF : Loss → F
  | .fin q => .fin q
  | .inf => .inf

/-- Python `int(q)` on a float: truncation toward zero (`Int.tdiv` is
T-division, and a rational's denominator is positive). -/
def pyInt (q : ℚ) : ℤ :=
  q.num.tdiv (q.den : ℤ)

/-- Python list indexing `l[i]`, including negative indices; out-of-range
raises `IndexError`. -/
def pyGet {α : Type} (l : List α) (i : ℤ) : Option α :=
  if i < 0 then
    if (l.length : ℤ) + i < 0 then none
    else l.get? ((l.length : ℤ) + i).toNat
  else l.get? i.toNat

/-- Python list slicing `l[:i]`, including negative `i` (an excessively
negative bound clamps to the empty list, as in Python). -/
def pyTake {α : Type} (l : List α) (i : ℤ) : List α :=
  if 0 ≤ i then l.take i.toNat
  else l.take ((l.length : ℤ) + i).toNat

/-- A prediction-file path matching `MODEL_FN_RE`: the regex groups are
`(seed, num_run, budget)`; `tag` distinguishes distinct file names whose
groups coincide. -/
structure PredPath where
  seed : ℤ
  numRun : ℤ
  budget : ℚ
  tag : ℕ
deriving DecidableEq, Repr

/-- One entry of `self.read_losses` (the loss cache), keyed by a path.
`seed`, `numRun`, `budget` are the values parsed from the path when the
record was created by `compute_loss_per_model`; `loaded` is the lazy-state
key (0 unloaded, 1 loaded, 2 dropped, 3 deleted). -/
structure LossRecord where
  ens_loss : Loss
  mtime_ens : ℤ
  seed : ℤ
  numRun : ℤ
  budget : ℚ
  disc_space_cost_mb : Option ℚ
  loaded : ℕ
deriving DecidableEq, Repr

/-- The loss cache `self.read_losses`: a Python dict modelled as an
insertion-ordered association list. -/
abbrev ReadLosses := List (PredPath × LossRecord)

/-- Sorted-prediction triples `(key, ens_loss, num_run)` as produced by
`_get_list_of_sorted_preds`. -/
abbrev SK := PredPath × Loss × ℤ

/-- The Python sort key `(x[1], x[2]) = (ens_loss, num_run)`, compared
lexicographically (ascending loss, then ascending `num_run`). -/
def skRel (a b : SK) : Prop :=
  Loss.ltb a.2.1 b.2.1 = true ∨ (a.2.1 = b.2.1 ∧ a.2.2 ≤ b.2.2)

instance : DecidableRel skRel := fun a b => by
  unfold skRel; infer_instance

instance : IsTotal SK skRel := by
  have hltb : ∀ a b : Loss, Loss.ltb a b = true ↔ Loss.toWT a < Loss.toWT b := by
    intro a b
    cases a <;> cases b <;>
      simp [Loss.ltb, Loss.toWT, WithTop.coe_lt_coe, WithTop.coe_lt_top, lt_irrefl]
  have hinj : ∀ a b : Loss, Loss.toWT a = Loss.toWT b → a = b := by
    intro a b h
    cases a <;> cases b <;> simp_all [Loss.toWT]
  constructor
  intro a b
  rcases lt_trichotomy (Loss.toWT a.2.1) (Loss.toWT b.2.1) with h | h | h
  · exact Or.inl (Or.inl ((hltb _ _).mpr h))
  · rcases le_total a.2.2 b.2.2 with h2 | h2
    · exact Or.inl (Or.inr ⟨hinj _ _ h, h2⟩)
    · exact Or.inr (Or.inr ⟨(hinj _ _ h).symm, h2⟩)
  · exact Or.inr (Or.inl ((hltb _ _).mpr h))

instance : IsTrans SK skRel := by
  have hltb : ∀ a b : Loss, Loss.ltb a b = true ↔ Loss.toWT a < Loss.toWT b := by
    intro a b
    cases a <;> cases b <;>
      simp [Loss.ltb, Loss.toWT, WithTop.coe_lt_coe, WithTop.coe_lt_top, lt_irrefl]
  constructor
  intro a b c hab hbc
  rcases hab with hab | ⟨hab, hab2⟩ <;> rcases hbc with hbc | ⟨hbc, hbc2⟩
  · exact Or.inl ((hltb _ _).mpr
      (lt_trans ((hltb _ _).mp hab) ((hltb _ _).mp hbc)))
  · exact Or.inl (by rw [← hbc]; exact hab)
  · exact Or.inl (by rw [hab]; exact hbc)
  · exact Or.inr ⟨hab.trans hbc, le_trans hab2 hbc2⟩

/-- `_get_list_of_sorted_preds`: all cached records as `(key, loss, num_run)`
triples, stably sorted by `(loss, num_run)` ascending.  Python's `sorted` is
a stable sort; a stable sort by a fixed total preorder is unique, so the
stable `List.insertionSort` computes exactly its result. -/
def get_list_of_sorted_preds (read_losses : ReadLosses) : List SK :=
  List.insertionSort skRel
    (read_losses.map (fun kv => (kv.1, kv.2.ens_loss, kv.2.numRun)))

/-- `ensemble_nbest`: the code distinguishes `numbers.Integral` values
from float fractions. -/
inductive NBest where
  | int (n : ℤ)
  | frac (q : ℚ)
deriving DecidableEq, Repr

/-- `max_models_on_disc`: `None`, an integer model count (validated
nonnegative by the constructor), or a float megabyte budget. -/
inductive MaxModels where
  | noLimit
  | intM (n : ℕ)
  | floatM (mb : ℚ)
deriving DecidableEq, Repr

/-- The `EnsembleBuilder` configuration fields that candidate selection
reads. -/
structure Config where
  seed : ℤ
  ensemble_nbest : NBest
  max_models_on_disc : MaxModels
  performance_range_threshold : ℚ
deriving DecidableEq, Repr

/-- Python exceptions that `get_n_best_preds` can raise. -/
inductive PyErr where
  | nameError
  | indexError
  | valueError
deriving DecidableEq, Repr

/-- Lines 1055–1058: keep only records strictly better than the dummy loss
(`x[1] < dummy_loss[1]`) and then only non-dummy records (`x[2] > 1`). -/
def nonDummyBetter (sorted_keys : List SK) (dummy_loss : SK) : List SK :=
  (sorted_keys.filter (fun x => Loss.ltb x.2.1 dummy_loss.2.1)).filter
    (fun x => decide (1 < x.2.2))

/-- The fallback pool of lines 1068–1071: the baseline records of the
configured seed, as `(key, loss, num_run)` triples in cache order. -/
def dummyFallback (seed : ℤ) (read_losses : ReadLosses) : List SK :=
  read_losses.filterMap (fun kv =>
    if kv.2.seed = seed ∧ kv.2.numRun = 1 then
      some (kv.1, kv.2.ens_loss, kv.2.numRun)
    else none)

/-- Lines 1042–1071: the sorted candidate list after the baseline filter.
`dummy_losses` is the sorted sublist of baseline (`run_id==1`) records and
`dummy_loss` its first element (the least `(loss, run_id)` among them).
When no record beats the dummy loss, fall back to the baseline records of
the configured seed. -/
def candidateKeys (seed : ℤ) (read_losses : ReadLosses) : List SK :=
  match (get_list_of_sorted_preds read_losses).filter
      (fun x => decide (x.2.2 = 1)) with
  | [] => get_list_of_sorted_preds read_losses
  | dummy_loss :: _ =>
    if (nonDummyBetter (get_list_of_sorted_preds read_losses) dummy_loss).length
        = 0 then
      dummyFallback seed read_losses
    else
      nonDummyBetter (get_list_of_sorted_preds read_losses) dummy_loss

/-- Lines 1074–1087: the `keep_nbest` count.  A float `ensemble_nbest` is a
fraction of the candidate count, truncated by Python `int()` and kept at
least 1; an integral one is capped by the candidate count. -/
def keepNBest (nbest : NBest) (len : ℕ) : ℤ :=
  match nbest with
  | .frac q => max 1 (min (len : ℤ) (pyInt ((len : ℚ) * q)))
  | .int n => min n (len : ℤ)

/-- Python `sorted` comparison of the `[ens_loss, disc_space_cost_mb]`
pairs of the `consumption` list: lexicographic on (loss, cost). -/
def consRel (a b : Loss × ℚ) : Prop :=
  Loss.ltb a.1 b.1 = true ∨ (a.1 = b.1 ∧ a.2 ≤ b.2)

instance : DecidableRel consRel := fun a b => by
  unfold consRel; infer_instance

/-- `np.cumsum` on a rational list. -/
def cumsum (l : List ℚ) : List ℚ :=
  (l.scanl (· + ·) 0).tail

/-- Lines 1091–1127: derive `max_resident_models` from `max_models_on_disc`.
For a float budget, the cumulative disk cost in ascending `(loss, cost)`
order, plus one pessimistic `max_consumption` margin, is compared against
the budget; `np.argmax` of the boolean excess vector (first `True` index,
0 when none) bounds the resident count, at least 1.  Python `max()` over
an empty `consumption` list raises `ValueError`. -/
def diskMaxResident (mmod : MaxModels) (read_losses : ReadLosses) :
    Except PyErr (Option ℕ) :=
  match mmod with
  | .noLimit => .ok Option.none
  | .intM n => .ok (some n)
  | .floatM budget =>
    let consumption : List (Loss × ℚ) := read_losses.filterMap (fun kv =>
      kv.2.disc_space_cost_mb.map (fun c => (kv.2.ens_loss, c)))
    match consumption with
    | [] => .error .valueError
    | c0 :: rest =>
      let max_consumption := rest.foldl (fun acc c => max acc c.2) c0.2
      if (consumption.map Prod.snd).sum + max_consumption > budget then
        let sorted_cum := (cumsum ((List.insertionSort consRel consumption).map
          Prod.snd)).map (· + max_consumption)
        let max_models := (sorted_cum.findIdx? (fun c => decide (budget < c))).getD 0
        .ok (some (max 1 max_models))
      else .ok Option.none

/-- The cutoff `worst_loss - (worst_loss - best_loss) * t` (line 1141),
computed in IEEE float arithmetic. -/
def perfCutoff (worst best : F) (t : ℚ) : F :=
  worst.sub ((worst.sub best).mulQ t)

/-- Lines 1138–1155: performance-range pruning of `keep_nbest`.
`dummy_loss` is a Python local that is only assigned when a baseline record
exists; reading it unassigned raises `NameError`.  `best_loss`
(`sorted_keys[0]`) is read first, so an empty candidate list raises
`IndexError` before the `NameError` can occur.  With `keep = 0` the guard
reads `sorted_keys[-1]`, the last element, by Python negative indexing. -/
def perfRange (t : ℚ) (sorted_keys : List SK) (dummy_loss : Option SK)
    (keep : ℤ) : Except PyErr ℤ :=
  if 0 < t then
    match pyGet sorted_keys 0 with
    | Option.none => .error .indexError
    | some first =>
      match dummy_loss with
      | Option.none => .error .nameError
      | some dl =>
        match pyGet sorted_keys (keep - 1) with
        | Option.none => .error .indexError
        | some last =>
          if F.ltb (perfCutoff dl.2.1.toF first.2.1.toF t) last.2.1.toF then
            .ok (match (pyTake sorted_keys keep).findIdx?
                   (fun x => F.leb (perfCutoff dl.2.1.toF first.2.1.toF t)
                     x.2.1.toF) with
                 | some i => max 1 (i : ℤ)
                 | Option.none => keep)
          else .ok keep
  else .ok keep

/-- Lines 1129–1135: clamp `keep_nbest` to `max_resident_models` when the
latter is set. -/
def clampKeep (max_resident : Option ℕ) (keep0 : ℤ) : ℤ :=
  match max_resident with
  | some m => if (m : ℤ) < keep0 then (m : ℤ) else keep0
  | Option.none => keep0

/-- `get_n_best_preds` (lines 1029–1189): the selected candidate keys, in
ascending-loss order, together with the `max_resident_models` value set by
the disk-budget step.  The read-cache side effects of lines 1160–1186
(dropping non-winning cached arrays, loading winning ones) do not affect
the returned keys and are not modelled. -/
def get_n_best_preds (cfg : Config) (read_losses : ReadLosses) :
    Except PyErr (List PredPath × Option ℕ) :=
  match diskMaxResident cfg.max_models_on_disc read_losses with
  | .error e => .error e
  | .ok max_resident =>
    match perfRange cfg.performance_range_threshold
        (candidateKeys cfg.seed read_losses)
        ((get_list_of_sorted_preds read_losses).filter
          (fun x => decide (x.2.2 = 1))).head?
        (clampKeep max_resident (keepNBest cfg.ensemble_nbest
          (candidateKeys cfg.seed read_losses).length)) with
    | .error e => .error e
    | .ok keep2 =>
      .ok (pyTake ((candidateKeys cfg.seed read_losses).map Prod.fst) keep2,
           max_resident)

/-- `_delete_excess_models` (lines 1464–1523): the paths whose backing run
directories one call attempts to delete.  `y_ens_files` is the glob result
of the current iteration and `has_been_candidate` the retention set; on an
OS failure a deletion is logged and skipped, so the actually-deleted set is
a subset of the returned list.  `max_resident` is `self.max_resident_models`
as left by `get_n_best_preds`.  The `selected_keys` parameter of the Python
method is never read by its body and is therefore not a parameter here;
`_num_run` is the regex group parsed back out of the path. -/
def delete_excess_models (read_losses : ReadLosses)
    (y_ens_files has_been_candidate : List PredPath)
    (max_resident : Option ℕ) : List PredPath :=
  match max_resident with
  | Option.none => []
  | some m =>
    let sorted_keys := (get_list_of_sorted_preds read_losses).map Prod.fst
    if sorted_keys.length ≤ m then []
    else
      let candidates := sorted_keys.take m
      y_ens_files.filter (fun p =>
        decide (p ∉ candidates) && decide (p ∉ has_been_candidate)
          && decide (p.numRun ≠ 1))

/-! ### The memory-exception degradation step of `run` -/

/-- The mutable driver state that the memory-exception handler of `run`
adjusts. -/
structure RunState where
  ensemble_nbest : NBest
  read_at_most : ℕ
deriving DecidableEq, Repr

/-- Control flow after the handler: fall through so the `while True` retry
loop continues, or return from `run`.  No branch raises. -/
inductive RunOutcome where
  | continueLoop
  | returnNow
deriving DecidableEq, Repr

/-- Lines 684–719: the `pynisher.MemorylimitException` handler of `run`.
With integral `ensemble_nbest` at its floor (≤ 1): cap `read_at_most` to 1,
or — when it already is 1 — set `ensemble_nbest = 0`; both branches fall
through, so the retry loop continues.  Otherwise `ensemble_nbest` is halved
(`int()`-truncated float division, kept at least 1 in the integral case;
note that halving a float `ensemble_nbest` turns it into the integer
`int(nbest / 2)`) and `run` returns `[], nbest, None, None`.  The
`os.remove` of the pickled memory file is a filesystem side effect and is
not modelled. -/
def memoryExceptionStep (s : RunState) : RunState × RunOutcome :=
  match s.ensemble_nbest with
  | .int n =>
    if n ≤ 1 then
      if s.read_at_most = 1 then
        ({ s with ensemble_nbest := .int 0 }, .continueLoop)
      else
        ({ s with read_at_most := 1 }, .continueLoop)
    else
      ({ s with ensemble_nbest := .int (max 1 (pyInt ((n : ℚ) / 2))) }, .returnNow)
  | .frac q =>
    ({ s with ensemble_nbest := .int (pyInt (q / 2)) }, .returnNow)

/-! ### The fingerprint check of `fit_ensemble` -/

/-- `zlib.adler32` over a byte string: `a` is 1 plus the sum of the bytes
and `b` the sum of the running `a` values, both modulo 65521; the checksum
is `b * 2^16 + a`. -/
def adler32 (data : List ℕ) : ℕ :=
  let s := data.foldl (fun ab byte =>
    let a := (ab.1 + byte) % 65521
    (a, (ab.2 + a) % 65521)) (1, 0)
  s.2 * 65536 + s.1

/-- The prediction cache `self.read_preds`, restricted to what
`fit_ensemble` reads from it: for each key, the raw bytes
(`.data.tobytes()`) of the cached ensemble-split prediction array. -/
abbrev ReadPreds := List (PredPath × List ℕ)

/-- Dictionary lookup in the prediction cache. -/
def lookupBytes (rp : ReadPreds) (k : PredPath) : Option (List ℕ) :=
  (rp.find? (fun kv => kv.1 == k)).map Prod.snd

/-- Lines 1276–1280: the content fingerprint
`"".join(str(zlib.adler32(pred.data.tobytes())) for pred in preds)` over
the selected keys; `none` when some selected key has no cached array (the
Python code would raise there). -/
def currentHash (rp : ReadPreds) (selected_keys : List PredPath) :
    Option String :=
  (selected_keys.mapM (lookupBytes rp)).map (fun bs =>
    String.join (bs.map (fun b => Nat.repr (adler32 b))))

/-- `fit_ensemble` (lines 1249–1333), with the `EnsembleSelection` greedy
fit abstracted: `fitted` stands for the ensemble the fit call would
produce, `none` when it raises `ValueError`/`IndexError` (both caught and
converted to a `None` result).  Returns the method's result together with
the updated `self.last_hash`: when the fingerprint matches `last_hash` the
method returns `None` before touching `last_hash`; otherwise `last_hash`
is set to the new fingerprint before fitting (so it is updated even when
the fit itself fails).  The outer `none` means the hash computation itself
would raise (missing cached array). -/
def fit_ensemble {Ens : Type} (fitted : Option Ens) (rp : ReadPreds)
    (selected_keys : List PredPath) (last_hash : Option String) :
    Option (Option Ens × Option String) :=
  match currentHash rp selected_keys with
  | Option.none => Option.none
  | some h =>
    if last_hash = some h then
      some (Option.none, last_hash)
    else
      some (fitted, some h)

/-! ### The read loop of `compute_loss_per_model` -/

/-- What actually reading one prediction file yields in the current
iteration: decode plus metric succeed with a loss and a disk cost, or some
step raises (lines 980–1019). -/
inductive ReadOutcome where
  | success (l : Loss) (c : ℚ)
  | failure
deriving DecidableEq, Repr

/-- One entry of the `to_read` work list of `compute_loss_per_model`: a
prediction file, its current modification time, and what reading it would
yield. -/
structure EnsFile where
  path : PredPath
  mtime : ℤ
  outcome : ReadOutcome
deriving DecidableEq, Repr

/-- A fresh loss record as created at lines 953–968. -/
def freshRecord (p : PredPath) : LossRecord :=
  ⟨Loss.inf, 0, p.seed, p.numRun, p.budget, Option.none, 0⟩

/-- Python dict read. -/
def dictGet (rl : ReadLosses) (k : PredPath) : Option LossRecord :=
  (rl.find? (fun kv => kv.1 == k)).map Prod.snd

/-- Python dict write: overwrite in place, or append a new key. -/
def dictSet (rl : ReadLosses) (k : PredPath) (r : LossRecord) : ReadLosses :=
  if rl.any (fun kv => kv.1 == k) then
    rl.map (fun kv => if kv.1 == k then (k, r) else kv)
  else rl ++ [(k, r)]

/-- Lines 975–1019, on the record `r0` of the current file: skip the file
when its modification time is unchanged; on a successful read store the
loss, timestamp, disk cost and `loaded = 2`; on a failed read set the loss
to `np.inf`.  The returned flag says whether `n_read_files` was
incremented — only a successful read counts. -/
def processRead (rl : ReadLosses) (f : EnsFile) (r0 : LossRecord) :
    ReadLosses × Bool :=
  if r0.mtime_ens = f.mtime then (rl, false)
  else match f.outcome with
    | .success l c =>
      let r1 := { r0 with ens_loss := l, mtime_ens := f.mtime,
                          loaded := 2, disc_space_cost_mb := some c }
      (dictSet rl f.path r1, true)
    | .failure =>
      (dictSet rl f.path { r0 with ens_loss := Loss.inf }, false)

/-- The per-file body of the read loop (lines 949–1019): create a fresh
record for an unseen path (whose fields the subsequent reads then see),
then run the mtime check and the read on that record. -/
def processFile (rl : ReadLosses) (f : EnsFile) : ReadLosses × Bool :=
  match dictGet rl f.path with
  | some r0 => processRead rl f r0
  | Option.none =>
    processRead (dictSet rl f.path (freshRecord f.path)) f
      (freshRecord f.path)

/-- The read loop of lines 939–1019 with its `read_at_most` break:
`read_at_most = 0` is falsy in Python, meaning no cap; otherwise the loop
breaks as soon as `n_read_files` reaches the cap. -/
def computeLossLoop (read_at_most : ℕ) :
    ReadLosses → List EnsFile → ℕ → ReadLosses × ℕ
  | rl, [], n => (rl, n)
  | rl, f :: fs, n =>
    if read_at_most ≠ 0 ∧ read_at_most ≤ n then (rl, n)
    else
      let step := processFile rl f
      computeLossLoop read_at_most step.1 fs (if step.2 then n + 1 else n)

/-- `compute_loss_per_model`, lines 926–1027: sort the work list by
`num_run` ascending (stable, like Python's `sorted`) and run the capped
read loop; returns the updated loss cache and `n_read_files`. -/
def compute_loss_per_model (read_at_most : ℕ) (rl : ReadLosses)
    (to_read : List EnsFile) : ReadLosses × ℕ :=
  computeLossLoop read_at_most rl
    (List.insertionSort (fun a b => a.path.numRun ≤ b.path.numRun) to_read) 0
/-! ### Concrete fixtures used by the claim theorems and witnesses -/

/-- Fixture for C7: a path of run `r` (seed 0, budget 50). -/
def pathC7 (r : ℤ) : PredPath := ⟨0, r, 50, 0⟩

/-- Fixture for C7: a cached record with loss `l` and run id `r`. -/
def recC7 (l : ℚ) (r : ℤ) : LossRecord :=
  ⟨Loss.fin l, 10, 0, r, 50, some 4, 0⟩

/-- Fixture for C7: losses [0.5, 0.3, 0.3] with run ids [5, 2, 7]. -/
def rlC7 : ReadLosses :=
  [(pathC7 5, recC7 (1/2) 5), (pathC7 2, recC7 (3/10) 2),
   (pathC7 7, recC7 (3/10) 7)]

/-- Fixture for C7: integer `ensemble_nbest = 2`, no disk limit,
`performance_range_threshold = 0`. -/
def cfgC7 : Config := ⟨0, .int 2, .noLimit, 0⟩

/-- Fixture for C5: a path of run `r`. -/
def pathC5 (r : ℤ) : PredPath := ⟨0, r, 50, 0⟩

/-- Fixture for C5: a record with loss `l`, run id `r`, and a 4 MB disk
footprint. -/
def recC5 (l : ℚ) (r : ℤ) : LossRecord :=
  ⟨Loss.fin l, 10, 0, r, 50, some 4, 0⟩

/-- Fixture for C5: three records with costs [4, 4, 4] MB in
ascending-loss order. -/
def rlC5 : ReadLosses :=
  [(pathC5 2, recC5 1 2), (pathC5 3, recC5 2 3), (pathC5 4, recC5 3 4)]

/-- Fixture for C5: float `max_models_on_disc = 10.0` MB. -/
def cfgC5 : Config := ⟨0, .int 10, .floatM 10, 0⟩

/-- Fixture for C3: a path of run `r`. -/
def pathC3 (r : ℤ) : PredPath := ⟨0, r, 50, 0⟩

/-- Fixture for C3: three non-baseline records with distinct losses. -/
def rlC3 : ReadLosses :=
  [(pathC3 2, ⟨Loss.fin 1, 10, 0, 2, 50, some 4, 0⟩),
   (pathC3 3, ⟨Loss.fin 2, 10, 0, 3, 50, some 4, 0⟩),
   (pathC3 4, ⟨Loss.fin 3, 10, 0, 4, 50, some 4, 0⟩)]

/-- Fixture for C3: fractional `ensemble_nbest = 0.5`. -/
def cfgC3 : Config := ⟨0, .frac (1/2), .noLimit, 0⟩

/-- Fixture for the C9 witness: one non-baseline record. -/
def rlC9 : ReadLosses := [(⟨0, 2, 50, 0⟩, ⟨Loss.fin 1, 10, 0, 2, 50, some 4, 0⟩)]

/-- Fixture for the C9 witness: threshold 0.5, no baseline in the cache. -/
def cfgC9 : Config := ⟨0, .int 2, .noLimit, 1/2⟩

/-- Fixture for the C8 witness: one cached prediction array. -/
def pC8 : PredPath := ⟨0, 2, 50, 0⟩

/-- Fixture for the C8 witness: its bytes are `[1, 2, 3]`. -/
def rpC8 : ReadPreds := [(pC8, [1, 2, 3])]

/-- Fixture for the C6 witness: two candidates with losses [4, 5]. -/
def sortedC6 : List SK :=
  [(⟨0, 2, 50, 0⟩, Loss.fin 4, 2), (⟨0, 3, 50, 0⟩, Loss.fin 5, 3)]

/-- Fixture for the C6 witness: the baseline record with loss 2. -/
def dummyC6 : SK := (⟨0, 1, 50, 0⟩, Loss.fin 2, 1)

/-- Fixture for the C1 witness: a path of run `r`. -/
def pathC1 (r : ℤ) : PredPath := ⟨0, r, 50, 0⟩

/-- Fixture for the C1 witness: three records, losses [1, 2, 3]. -/
def rlC1 : ReadLosses :=
  [(pathC1 2, ⟨Loss.fin 1, 10, 0, 2, 50, some 4, 0⟩),
   (pathC1 3, ⟨Loss.fin 2, 10, 0, 3, 50, some 4, 0⟩),
   (pathC1 4, ⟨Loss.fin 3, 10, 0, 4, 50, some 4, 0⟩)]

/-- Fixture for the C1 witness: integer `max_models_on_disc = 1`. -/
def cfgC1 : Config := ⟨0, .int 2, .intM 1, 0⟩

/-- Fixture for the C4 counterexample: the first baseline record. -/
def pathC4a : PredPath := ⟨0, 1, 50, 0⟩

/-- Fixture for the C4 counterexample: a second baseline record (another
budget). -/
def pathC4b : PredPath := ⟨0, 1, 100, 0⟩

/-- Fixture for the C4 counterexample: a non-baseline record at loss ≥
baseline. -/
def pathC4c : PredPath := ⟨0, 5, 50, 0⟩

/-- Fixture for the C4 counterexample: two baselines of loss 2 and one
model of loss 3 (no model beats the baseline). -/
def rlC4 : ReadLosses :=
  [(pathC4a, ⟨Loss.fin 2, 10, 0, 1, 50, some 4, 0⟩),
   (pathC4b, ⟨Loss.fin 2, 10, 0, 1, 100, some 4, 0⟩),
   (pathC4c, ⟨Loss.fin 3, 10, 0, 5, 50, some 4, 0⟩)]

/-- Fixture for the C4 counterexample: integer `ensemble_nbest = 1`. -/
def cfgC4 : Config := ⟨0, .int 1, .noLimit, 0⟩

/-- Fixture for the C4 amended witness: a baseline of loss 2 and a model
of loss 1 that beats it. -/
def rlC4w : ReadLosses :=
  [(pathC4a, ⟨Loss.fin 2, 10, 0, 1, 50, some 4, 0⟩),
   (pathC4c, ⟨Loss.fin 1, 10, 0, 5, 50, some 4, 0⟩)]

/-- The current iteration would read the file and fail (decode or metric
raises), and the cached modification time differs, so the file is not
skipped. -/
def changedFail (rl : ReadLosses) (f : EnsFile) : Prop :=
  f.outcome = .failure ∧
    ∃ r0, dictGet rl f.path = some r0 ∧ r0.mtime_ens ≠ f.mtime

/-- The file's cached modification time is unchanged, so the loop skips it
without reading. -/
def unchangedF (rl : ReadLosses) (f : EnsFile) : Prop :=
  ∃ r0, dictGet rl f.path = some r0 ∧ r0.mtime_ens = f.mtime

/-- Fixture for the C10 witness: a failing prediction file of run `r`,
with a changed modification time. -/
def fC10 (r : ℤ) : EnsFile := ⟨⟨0, r, 50, 0⟩, 7, .failure⟩

/-- Fixture for the C10 witness: two cached records last read at mtime 5
with finite losses. -/
def rlC10 : ReadLosses :=
  [(⟨0, 2, 50, 0⟩, ⟨Loss.fin 1, 5, 0, 2, 50, some 4, 0⟩),
   (⟨0, 3, 50, 0⟩, ⟨Loss.fin 2, 5, 0, 3, 50, some 4, 0⟩)]

/-! ### General lemmas about the embedding -/

theorem Loss.ltb_iff (a b : Loss) : ltb a b = true ↔ toWT a < toWT b := by
  cases a <;> cases b <;>
    simp [ltb, toWT, WithTop.coe_lt_coe, WithTop.coe_lt_top, lt_irrefl]

theorem Loss.leb_iff (a b : Loss) : leb a b = true ↔ toWT a ≤ toWT b := by
  cases a <;> cases b <;>
    simp [leb, toWT, WithTop.coe_le_coe, le_top]

theorem Loss.toWT_injective : Function.Injective toWT := by
  intro a b h
  cases a <;> cases b <;> simp_all [toWT]

theorem pyTake_of_nonneg {α : Type} (l : List α) (i : ℤ) (h : 0 ≤ i) :
    pyTake l i = l.take i.toNat := by
  simp [pyTake, h]

theorem length_pyTake_le {α : Type} (l : List α) (i : ℤ) (h : 0 ≤ i) :
    (pyTake l i).length ≤ i.toNat := by
  rw [pyTake_of_nonneg l i h]
  exact (List.length_take _ _).trans_le (min_le_left _ _)

theorem mem_take_of_le {α : Type} {l : List α} {j m : ℕ} (hjm : j ≤ m) {a : α}
    (ha : a ∈ l.take j) : a ∈ l.take m := by
  have : l.take j = (l.take m).take j := by
    rw [List.take_take, min_eq_left hjm]
  rw [this] at ha
  exact List.take_subset _ _ ha

theorem perm_get_list_of_sorted_preds (rl : ReadLosses) :
    (get_list_of_sorted_preds rl).Perm
      (rl.map (fun kv => (kv.1, kv.2.ens_loss, kv.2.numRun))) :=
  List.perm_insertionSort _ _

theorem length_get_list_of_sorted_preds (rl : ReadLosses) :
    (get_list_of_sorted_preds rl).length = rl.length := by
  rw [(perm_get_list_of_sorted_preds rl).length_eq, List.length_map]

theorem pairwise_get_list_of_sorted_preds (rl : ReadLosses) :
    (get_list_of_sorted_preds rl).Pairwise skRel :=
  List.sorted_insertionSort skRel _

theorem mem_get_list_of_sorted_preds {rl : ReadLosses} {x : SK} :
    x ∈ get_list_of_sorted_preds rl ↔
      ∃ kv ∈ rl, x = (kv.1, kv.2.ens_loss, kv.2.numRun) := by
  rw [(perm_get_list_of_sorted_preds rl).mem_iff, List.mem_map]
  constructor
  · rintro ⟨kv, hkv, rfl⟩; exact ⟨kv, hkv, rfl⟩
  · rintro ⟨kv, hkv, rfl⟩; exact ⟨kv, hkv, rfl⟩

/-- `skRel` implies non-strict loss order. -/
theorem skRel_loss_le {a b : SK} (h : skRel a b) :
    Loss.toWT a.2.1 ≤ Loss.toWT b.2.1 := by
  rcases h with h | ⟨h, _⟩
  · exact le_of_lt ((Loss.ltb_iff _ _).mp h)
  · rw [h]

/-- Inversion principle for a successful `get_n_best_preds` call. -/
theorem get_n_best_preds_ok_iff {cfg : Config} {rl : ReadLosses}
    {out : List PredPath × Option ℕ} :
    get_n_best_preds cfg rl = .ok out ↔
      ∃ mres keep2,
        diskMaxResident cfg.max_models_on_disc rl = .ok mres ∧
        perfRange cfg.performance_range_threshold (candidateKeys cfg.seed rl)
          ((get_list_of_sorted_preds rl).filter (fun x => decide (x.2.2 = 1))).head?
          (clampKeep mres
            (keepNBest cfg.ensemble_nbest (candidateKeys cfg.seed rl).length))
          = .ok keep2 ∧
        out = (pyTake ((candidateKeys cfg.seed rl).map Prod.fst) keep2, mres) := by
  unfold get_n_best_preds
  constructor
  · intro h
    split at h
    · exact absurd h (by simp)
    · rename_i mres hd
      split at h
      · exact absurd h (by simp)
      · rename_i keep2 hp
        exact ⟨mres, keep2, hd, hp, (Except.ok.injEq _ _ ▸ h).symm⟩
  · rintro ⟨mres, keep2, hd, hp, rfl⟩
    rw [hd]
    dsimp only
    rw [hp]

/-- In a cache without any baseline record the dummy filter is empty. -/
theorem dummy_filter_eq_nil {rl : ReadLosses}
    (hnb : ∀ kv ∈ rl, kv.2.numRun ≠ 1) :
    (get_list_of_sorted_preds rl).filter (fun x => decide (x.2.2 = 1)) = [] := by
  rw [List.filter_eq_nil_iff]
  intro x hx
  rcases mem_get_list_of_sorted_preds.mp hx with ⟨kv, hkv, rfl⟩
  simpa using hnb kv hkv

/-- Without a baseline record the baseline filter leaves the sorted list
unchanged. -/
theorem candidateKeys_of_no_dummy {seed : ℤ} {rl : ReadLosses}
    (hnb : ∀ kv ∈ rl, kv.2.numRun ≠ 1) :
    candidateKeys seed rl = get_list_of_sorted_preds rl := by
  unfold candidateKeys
  rw [dummy_filter_eq_nil hnb]

/-- With a zero threshold the performance-range step is disabled. -/
theorem perfRange_zero (sorted_keys : List SK) (dummy_loss : Option SK)
    (keep : ℤ) : perfRange 0 sorted_keys dummy_loss keep = .ok keep := by
  unfold perfRange
  rw [if_neg (lt_irrefl 0)]

/-! ### Claim C7: deterministic (loss, run_id) ordering -/

/-- C7: for a cache of three non-baseline records with losses
[0.5, 0.3, 0.3] and run ids [5, 2, 7] and integer `ensemble_nbest = 2`
(no disk limit, threshold 0), `get_n_best_preds` returns exactly the paths
of run 2 then run 7, in that order: sorting is by (loss asc, run_id asc),
so among equal losses the smaller run id comes first, and run 5 with the
larger loss is dropped. -/
theorem get_n_best_preds_sorts_by_loss_then_run_id :
    get_n_best_preds cfgC7 rlC7 = .ok ([pathC7 2, pathC7 7], Option.none) := by
  with_unfolding_all rfl

/-! ### Claim C5: float disk budget translates into a resident cap -/

/-- C5: with a float disk budget of 10.0 MB and three cached records of
4 MB each in ascending-loss order, the pessimistic cumulative costs are
[8, 12, 16]; the first 0-indexed position exceeding 10 is 1, so
`get_n_best_preds` sets `max_resident_models = max(1, 1) = 1` and returns
a single candidate. -/
theorem get_n_best_preds_float_disk_budget :
    (cumsum ((List.insertionSort consRel
        [(Loss.fin 1, 4), (Loss.fin 2, 4), (Loss.fin 3, 4)]).map Prod.snd)).map
        (· + 4) = [8, 12, 16] ∧
    get_n_best_preds cfgC5 rlC5 = .ok ([pathC5 2], some 1) := by
  constructor
  · with_unfolding_all rfl
  · with_unfolding_all rfl

/-! ### Claim C3: fractional `ensemble_nbest` truncates, it does not round -/

/-- C3, counterexample: with 3 candidates and fraction 0.5 the claimed
round-to-nearest formula gives `max(1, round(1.5)) = 2`, but the code
computes `int(3 * 0.5) = 1` and returns a single candidate. -/
theorem get_n_best_preds_fraction_not_rounded :
    get_n_best_preds cfgC3 rlC3 = .ok ([pathC3 2], Option.none) ∧
    ([pathC3 2] : List PredPath).length ≠ 2 ∧
    max (1 : ℤ) (round ((3 : ℚ) * (1/2))) = 2 := by
  refine ⟨by with_unfolding_all rfl, by decide, by norm_num [round_eq]⟩

/-- C3, amended: for every non-empty candidate cache (no baseline records,
no disk limit, zero threshold) and fractional `ensemble_nbest = q`,
`get_n_best_preds` keeps `max(1, min(len, int(len * q)))` candidates —
Python `int()` truncation toward zero, not rounding to nearest. -/
theorem get_n_best_preds_fraction_truncates (cfg : Config) (rl : ReadLosses)
    (q : ℚ)
    (hq : cfg.ensemble_nbest = .frac q)
    (hml : cfg.max_models_on_disc = .noLimit)
    (ht : cfg.performance_range_threshold = 0)
    (hnb : ∀ kv ∈ rl, kv.2.numRun ≠ 1)
    (hne : rl ≠ []) :
    ∃ cands, get_n_best_preds cfg rl = .ok (cands, Option.none) ∧
      (cands.length : ℤ) =
        max 1 (min (rl.length : ℤ) (pyInt ((rl.length : ℚ) * q))) := by
  have hck : candidateKeys cfg.seed rl = get_list_of_sorted_preds rl :=
    candidateKeys_of_no_dummy hnb
  have hlen : (candidateKeys cfg.seed rl).length = rl.length := by
    rw [hck, length_get_list_of_sorted_preds]
  have hkeep : keepNBest cfg.ensemble_nbest (candidateKeys cfg.seed rl).length
      = max 1 (min (rl.length : ℤ) (pyInt ((rl.length : ℚ) * q))) := by
    rw [hq, hlen]; rfl
  have hlen1 : 1 ≤ rl.length := by
    cases rl with
    | nil => exact absurd rfl hne
    | cons a l => exact Nat.succ_le_succ (Nat.zero_le _)
  set keep0 : ℤ := max 1 (min (rl.length : ℤ) (pyInt ((rl.length : ℚ) * q)))
    with hkeep0
  have hk0pos : 1 ≤ keep0 := le_max_left _ _
  have hk0le : keep0 ≤ (rl.length : ℤ) := by
    have h1 : (1 : ℤ) ≤ (rl.length : ℤ) := by exact_mod_cast hlen1
    have h2 : min (rl.length : ℤ) (pyInt ((rl.length : ℚ) * q))
        ≤ (rl.length : ℤ) := min_le_left _ _
    omega
  refine ⟨pyTake ((candidateKeys cfg.seed rl).map Prod.fst) keep0, ?_, ?_⟩
  · refine get_n_best_preds_ok_iff.mpr ⟨Option.none, keep0, ?_, ?_, rfl⟩
    · rw [hml]; rfl
    · rw [ht, hkeep]
      exact perfRange_zero _ _ _
  · rw [pyTake_of_nonneg _ _ (le_trans zero_le_one hk0pos), List.length_take,
      List.length_map, hlen]
    have : keep0.toNat ≤ rl.length := by omega
    rw [min_eq_left this]
    omega

/-- Witness instantiating the amended C3 theorem: 3 candidates and
fraction 0.5 keep `max(1, int(1.5)) = 1` model. -/
theorem get_n_best_preds_fraction_truncates_witness :
    ∃ cands, get_n_best_preds cfgC3 rlC3 = .ok (cands, Option.none) ∧
      (cands.length : ℤ) =
        max 1 (min (rlC3.length : ℤ) (pyInt ((rlC3.length : ℚ) * (1/2)))) :=
  get_n_best_preds_fraction_truncates cfgC3 rlC3 (1/2) rfl rfl rfl
    (by decide) (by decide)

/-! ### Claim C9: the performance-range step requires a baseline record -/

/-- C9: if `performance_range_threshold > 0` and the loss cache contains no
record with `run_id == 1`, `get_n_best_preds` raises: the `dummy_loss`
local read by the performance-range step is only assigned when a baseline
record exists (`NameError`; with an empty cache the `sorted_keys[0]` read
raises `IndexError` first).  A baseline record is an undocumented
precondition of performance-range pruning. -/
theorem get_n_best_preds_threshold_needs_baseline (cfg : Config)
    (rl : ReadLosses)
    (ht : 0 < cfg.performance_range_threshold)
    (hnb : ∀ kv ∈ rl, kv.2.numRun ≠ 1) :
    ∃ e, get_n_best_preds cfg rl = .error e := by
  unfold get_n_best_preds
  cases hd : diskMaxResident cfg.max_models_on_disc rl with
  | error e => exact ⟨e, rfl⟩
  | ok mres =>
    have hperf : ∃ e, perfRange cfg.performance_range_threshold
        (candidateKeys cfg.seed rl)
        ((get_list_of_sorted_preds rl).filter
          (fun x => decide (x.2.2 = 1))).head?
        (clampKeep mres (keepNBest cfg.ensemble_nbest
          (candidateKeys cfg.seed rl).length)) = .error e := by
      unfold perfRange
      rw [if_pos ht, dummy_filter_eq_nil hnb]
      cases hg : pyGet (candidateKeys cfg.seed rl) 0 with
      | none => exact ⟨.indexError, rfl⟩
      | some first => exact ⟨.nameError, rfl⟩
    rcases hperf with ⟨e, he⟩
    dsimp only
    rw [he]
    exact ⟨e, rfl⟩

/-- Witness instantiating the C9 theorem on a concrete cache. -/
theorem get_n_best_preds_threshold_needs_baseline_witness :
    ∃ e, get_n_best_preds cfgC9 rlC9 = .error e :=
  get_n_best_preds_threshold_needs_baseline cfgC9 rlC9
    (by norm_num [cfgC9]) (by decide)

/-! ### Claim C2: adaptive degradation on memory exhaustion -/

/-- On nonnegative rationals Python `int()` agrees with the floor. -/
theorem pyInt_eq_floor {q : ℚ} (h : 0 ≤ q) : pyInt q = ⌊q⌋ := by
  rw [Rat.floor_def]
  exact Int.tdiv_eq_ediv (Rat.num_nonneg.mpr h) (Int.natCast_nonneg _)

/-- C2: on a memory-limit exhaustion of the sandboxed `main` call inside
`run`: an integral `ensemble_nbest ≥ 2` is halved to `⌊nbest / 2⌋ ≥ 1` and
`run` returns the degraded value; an integral `ensemble_nbest` already at
its floor (≤ 1) with `read_at_most > 1` sets `read_at_most = 1` instead;
at the floor with `read_at_most == 1` it sets `ensemble_nbest = 0`.  In
both floor cases the handler falls through, so the retry loop keeps
running; no branch raises an exception. -/
theorem memory_exception_degradation (s : RunState) :
    (∀ n, s.ensemble_nbest = .int n → 1 < n →
      memoryExceptionStep s =
        ({ s with ensemble_nbest := .int ⌊(n : ℚ) / 2⌋ }, .returnNow)) ∧
    (∀ n, s.ensemble_nbest = .int n → n ≤ 1 → 1 < s.read_at_most →
      memoryExceptionStep s = ({ s with read_at_most := 1 }, .continueLoop)) ∧
    (∀ n, s.ensemble_nbest = .int n → n ≤ 1 → s.read_at_most = 1 →
      memoryExceptionStep s =
        ({ s with ensemble_nbest := .int 0 }, .continueLoop)) := by
  rcases s with ⟨nb, ra⟩
  refine ⟨?_, ?_, ?_⟩
  · rintro n rfl hn
    have h2 : (0 : ℚ) ≤ (n : ℚ) / 2 := by positivity
    have hfl : 1 ≤ ⌊(n : ℚ) / 2⌋ := by
      rw [Int.le_floor]
      rw [le_div_iff₀ (by norm_num : (0 : ℚ) < 2)]
      push_cast
      exact_mod_cast (by omega : (2 : ℤ) ≤ n)
    simp only [memoryExceptionStep, if_neg (by omega : ¬ n ≤ 1)]
    rw [pyInt_eq_floor h2, max_eq_right hfl]
  · rintro n rfl hn hra
    have hra1 : 1 < ra := hra
    simp only [memoryExceptionStep, if_pos hn, if_neg (by omega : ¬ ra = 1)]
  · rintro n rfl hn hra
    have hra1 : ra = 1 := hra
    simp only [memoryExceptionStep, if_pos hn, if_pos hra1]

/-- Witness instantiating all three branches of the C2 theorem at concrete
driver states. -/
theorem memory_exception_degradation_witness :
    memoryExceptionStep ⟨.int 4, 5⟩ = (⟨.int ⌊(4 : ℚ) / 2⌋, 5⟩, .returnNow) ∧
    memoryExceptionStep ⟨.int 1, 5⟩ = (⟨.int 1, 1⟩, .continueLoop) ∧
    memoryExceptionStep ⟨.int 1, 1⟩ = (⟨.int 0, 1⟩, .continueLoop) :=
  ⟨(memory_exception_degradation ⟨.int 4, 5⟩).1 4 rfl (by decide),
   (memory_exception_degradation ⟨.int 1, 5⟩).2.1 1 rfl (by decide) (by decide),
   (memory_exception_degradation ⟨.int 1, 1⟩).2.2 1 rfl (by decide) rfl⟩

/-! ### Claim C8: refitting on unchanged predictions is a no-op -/

/-- C8: if a `fit_ensemble` call succeeds (computes a fingerprint and
returns, leaving `last_hash = lh1`), then a second call with the same
selected keys and byte-identical cached arrays returns `None` — the
adler32-based fingerprint matches `lh1` — and leaves `last_hash`
unchanged, so no new ensemble is fitted or saved. -/
theorem fit_ensemble_second_call_noop {Ens : Type} (fitted fitted2 : Option Ens)
    (rp : ReadPreds) (keys : List PredPath) (last_hash : Option String)
    (r1 : Option Ens) (lh1 : Option String)
    (h1 : fit_ensemble fitted rp keys last_hash = some (r1, lh1)) :
    fit_ensemble fitted2 rp keys lh1 = some (Option.none, lh1) := by
  unfold fit_ensemble at h1 ⊢
  cases hh : currentHash rp keys with
  | none => rw [hh] at h1; exact absurd h1 (by simp)
  | some h =>
    rw [hh] at h1
    dsimp only at h1 ⊢
    have hlh1 : lh1 = some h := by
      split at h1
      · rename_i heq
        simp only [Option.some.injEq, Prod.mk.injEq] at h1
        rw [← h1.2]; exact heq
      · simp only [Option.some.injEq, Prod.mk.injEq] at h1
        exact h1.2.symm
    rw [if_pos hlh1]

/-- Witness instantiating the C8 theorem after a concrete first fit (the
adler32 fingerprint of bytes `[1, 2, 3]` is `851975`). -/
theorem fit_ensemble_second_call_noop_witness :
    fit_ensemble (some 1) rpC8 [pC8] (some "851975")
      = some (Option.none, some "851975") :=
  fit_ensemble_second_call_noop (some (1 : ℕ)) (some 1) rpC8 [pC8]
    Option.none (some 1) (some "851975") (by with_unfolding_all rfl)

/-! ### Claim C6: performance-range pruning at cutoff 3.0 -/

/-- In a `(loss, run_id)`-ordered pair, the later loss strictly exceeds 3
when the earlier loss is 4. -/
theorem skRel_gt_three {first x : SK} (hfirst : first.2.1 = Loss.fin 4)
    (h : skRel first x) : F.ltb (F.fin 3) x.2.1.toF = true := by
  have hle := skRel_loss_le h
  rw [hfirst] at hle
  cases hx : x.2.1 with
  | inf => rfl
  | fin l =>
    rw [hx] at hle
    have h4 : (4 : ℚ) ≤ l := by
      have hle2 : ((4 : ℚ) : WithTop ℚ) ≤ (l : WithTop ℚ) := hle
      exact_mod_cast hle2
    show decide ((3 : ℚ) < l) = true
    rw [decide_eq_true_eq]
    linarith

/-- C6: with `performance_range_threshold = 0.5`, baseline (dummy) loss 2.0
and best candidate loss 4.0, the performance-range step computes the cutoff
`worst - (worst - best) * t = 3.0` and prunes every kept candidate whose
loss is ≥ 3.0, keeping exactly one model even when `keep` more are within
the nbest count. -/
theorem perf_range_prunes_to_cutoff (sorted : List SK) (first : SK)
    (rest : List SK) (dummy : SK) (keep : ℤ)
    (hs : sorted = first :: rest)
    (hsorted : sorted.Pairwise skRel)
    (hfirst : first.2.1 = Loss.fin 4)
    (hdummy : dummy.2.1 = Loss.fin 2)
    (hk1 : 1 ≤ keep) (hk2 : keep ≤ (sorted.length : ℤ)) :
    perfCutoff dummy.2.1.toF first.2.1.toF (1/2) = F.fin 3 ∧
    perfRange (1/2) sorted (some dummy) keep = .ok 1 := by
  subst hs
  have hcut : perfCutoff dummy.2.1.toF first.2.1.toF (1/2) = F.fin 3 := by
    rw [hdummy, hfirst]
    show F.fin (2 - (2 - 4) * (1/2)) = F.fin 3
    norm_num
  refine ⟨hcut, ?_⟩
  unfold perfRange
  rw [if_pos (by norm_num : (0 : ℚ) < 1/2)]
  have hget0 : pyGet (first :: rest) 0 = some first := rfl
  rw [hget0]
  have hlt : (keep - 1).toNat < (first :: rest).length := by
    simp only [List.length_cons] at hk2 ⊢
    omega
  have hlast : pyGet (first :: rest) (keep - 1)
      = some ((first :: rest).get ⟨(keep - 1).toNat, hlt⟩) := by
    unfold pyGet
    rw [if_neg (by omega : ¬ (keep - 1 : ℤ) < 0)]
    exact List.get?_eq_get hlt
  have hrel : (first :: rest).get ⟨(keep - 1).toNat, hlt⟩ = first ∨
      skRel first ((first :: rest).get ⟨(keep - 1).toNat, hlt⟩) := by
    rcases Nat.eq_zero_or_pos (keep - 1).toNat with hz | hpos
    · left
      have : (⟨(keep - 1).toNat, hlt⟩ : Fin (first :: rest).length)
          = ⟨0, by simp⟩ := Fin.ext hz
      rw [this]
      rfl
    · right
      have h0 : (first :: rest).get ⟨0, by simp⟩ = first := rfl
      rw [← h0]
      exact List.pairwise_iff_get.mp hsorted ⟨0, by simp⟩
        ⟨(keep - 1).toNat, hlt⟩ hpos
  have hguard : F.ltb (perfCutoff dummy.2.1.toF first.2.1.toF (1/2))
      ((first :: rest).get ⟨(keep - 1).toNat, hlt⟩).2.1.toF = true := by
    rw [hcut]
    rcases hrel with h | h
    · rw [h, hfirst]; rfl
    · exact skRel_gt_three hfirst h
  rw [hlast]
  dsimp only
  rw [if_pos hguard]
  have hpf : F.leb (perfCutoff dummy.2.1.toF first.2.1.toF (1/2))
      first.2.1.toF = true := by
    rw [hcut, hfirst]
    show decide ((3 : ℚ) ≤ 4) = true
    norm_num
  have hfind : (pyTake (first :: rest) keep).findIdx?
      (fun x => F.leb (perfCutoff dummy.2.1.toF first.2.1.toF (1/2))
        x.2.1.toF) = some 0 := by
    obtain ⟨j, hj⟩ : ∃ j, keep.toNat = j + 1 := ⟨keep.toNat - 1, by omega⟩
    rw [pyTake_of_nonneg _ _ (by omega), hj, List.take_succ_cons]
    rw [List.findIdx?_cons]
    simp only [hpf, if_true]
  rw [hfind]
  rfl

/-- Witness instantiating the C6 theorem: with `keep = 2`, both kept
candidates have loss ≥ cutoff 3 and exactly one model survives. -/
theorem perf_range_prunes_to_cutoff_witness :
    perfCutoff (F.fin 2) (F.fin 4) (1/2) = F.fin 3 ∧
    perfRange (1/2) sortedC6 (some dummyC6) 2 = .ok 1 :=
  perf_range_prunes_to_cutoff sortedC6 (⟨0, 2, 50, 0⟩, Loss.fin 4, 2)
    [(⟨0, 3, 50, 0⟩, Loss.fin 5, 3)] dummyC6 2 rfl (by decide) rfl rfl
    (by decide) (by decide)

/-! ### Claim C1: resident-set bound and deletion safety -/

theorem findIdx?_bound {α : Type} {p : α → Bool} :
    ∀ {l : List α} {s i : ℕ}, l.findIdx? p s = some i → s ≤ i ∧ i < s + l.length := by
  intro l
  induction l with
  | nil =>
    intro s i h
    simp [List.findIdx?] at h
  | cons x xs ih =>
    intro s i h
    rw [List.findIdx?_cons] at h
    split at h
    · cases h
      exact ⟨le_rfl, by simp only [List.length_cons]; omega⟩
    · rcases ih h with ⟨h1, h2⟩
      exact ⟨by omega, by simp only [List.length_cons]; omega⟩

/-- A successful performance-range step never enlarges the kept count and
keeps it nonnegative. -/
theorem perfRange_ok_bound {t : ℚ} {sorted : List SK} {dummy : Option SK}
    {keep k2 : ℤ} (hk : 0 ≤ keep)
    (h : perfRange t sorted dummy keep = .ok k2) :
    0 ≤ k2 ∧ k2 ≤ keep := by
  unfold perfRange at h
  split at h
  · split at h
    · exact absurd h (by simp)
    · split at h
      · exact absurd h (by simp)
      · split at h
        · exact absurd h (by simp)
        · split at h
          · simp only [Except.ok.injEq] at h
            split at h
            · rename_i i heq
              have hb := findIdx?_bound heq
              have hlen := length_pyTake_le sorted keep hk
              have hik : (i : ℤ) < keep := by
                have : i < keep.toNat := by omega
                omega
              omega
            · omega
          · simp only [Except.ok.injEq] at h
            omega
  · simp only [Except.ok.injEq] at h
    omega

/-- `keep_nbest` is nonnegative whenever an integral `ensemble_nbest` is
(which the constructor validation and the degradation policy guarantee). -/
theorem keepNBest_nonneg {nb : NBest} {len : ℕ}
    (hnb : ∀ n, nb = .int n → 0 ≤ n) : 0 ≤ keepNBest nb len := by
  cases nb with
  | int n =>
    have := hnb n rfl
    simp only [keepNBest]
    omega
  | frac q =>
    exact le_trans zero_le_one (le_max_left _ _)

/-- The disk-budget clamp stays below the cap and preserves nonnegativity. -/
theorem clampKeep_some_bound (m : ℕ) (keep0 : ℤ) (h0 : 0 ≤ keep0) :
    0 ≤ clampKeep (some m) keep0 ∧ clampKeep (some m) keep0 ≤ (m : ℤ) := by
  simp only [clampKeep]
  split <;> omega

/-- In a `Pairwise`-sorted list, filtering by a downward-closed predicate
is the same as taking the longest satisfying prefix. -/
theorem filter_eq_takeWhile_of_pairwise {α : Type} {R : α → α → Prop}
    {p : α → Bool} : ∀ {l : List α}, l.Pairwise R →
    (∀ a b, R a b → p b = true → p a = true) →
    l.filter p = l.takeWhile p := by
  intro l
  induction l with
  | nil => intro _ _; rfl
  | cons x xs ih =>
    intro hl hdc
    rcases List.pairwise_cons.mp hl with ⟨hx, hxs⟩
    by_cases hpx : p x = true
    · rw [List.filter_cons_of_pos hpx, List.takeWhile_cons_of_pos hpx,
        ih hxs hdc]
    · rw [List.filter_cons_of_neg hpx, List.takeWhile_cons_of_neg hpx,
        List.filter_eq_nil_iff]
      intro b hb hpb
      exact hpx (hdc x b (hx b hb) hpb)

/-- When a baseline record exists and some record beats it, the
baseline-filtered candidate list is exactly a prefix (a `take`) of the full
sorted list: every record with loss strictly below the least baseline loss
sits before every other record, and no baseline record can itself beat the
least baseline loss. -/
theorem nonDummyBetter_eq_take {rl : ReadLosses} {dl : SK} {dls : List SK}
    (hrun1 : ∀ x ∈ get_list_of_sorted_preds rl, 1 ≤ x.2.2)
    (hdum : (get_list_of_sorted_preds rl).filter
      (fun x => decide (x.2.2 = 1)) = dl :: dls) :
    nonDummyBetter (get_list_of_sorted_preds rl) dl =
      (get_list_of_sorted_preds rl).take
        (((get_list_of_sorted_preds rl).takeWhile
          (fun x => Loss.ltb x.2.1 dl.2.1)).length) := by
  have hpair := pairwise_get_list_of_sorted_preds rl
  have hs1 : (get_list_of_sorted_preds rl).filter
      (fun x => Loss.ltb x.2.1 dl.2.1) =
      (get_list_of_sorted_preds rl).takeWhile
        (fun x => Loss.ltb x.2.1 dl.2.1) := by
    refine filter_eq_takeWhile_of_pairwise hpair ?_
    intro a b hab hb
    rw [Loss.ltb_iff] at hb ⊢
    exact lt_of_le_of_lt (skRel_loss_le hab) hb
  have hs2 : nonDummyBetter (get_list_of_sorted_preds rl) dl =
      (get_list_of_sorted_preds rl).filter
        (fun x => Loss.ltb x.2.1 dl.2.1) := by
    unfold nonDummyBetter
    rw [List.filter_eq_self]
    intro x hx
    rcases List.mem_filter.mp hx with ⟨hx0, hxlt⟩
    have h1 : 1 ≤ x.2.2 := hrun1 x hx0
    rcases lt_or_eq_of_le h1 with h1' | h1'
    · simpa using h1'
    · exfalso
      have hxd : x ∈ dl :: dls := by
        rw [← hdum, List.mem_filter]
        exact ⟨hx0, by simpa using h1'.symm⟩
      have hdpair : (dl :: dls).Pairwise skRel := by
        rw [← hdum]
        exact hpair.filter _
      rcases List.mem_cons.mp hxd with rfl | hxd'
      · rw [Loss.ltb_iff] at hxlt
        exact lt_irrefl _ hxlt
      · have hrel := (List.pairwise_cons.mp hdpair).1 x hxd'
        rw [Loss.ltb_iff] at hxlt
        exact absurd (skRel_loss_le hrel) (not_le.mpr hxlt)
  rw [hs2, hs1]
  exact List.prefix_iff_eq_take.mp (List.takeWhile_prefix _)

/-- Unfolding of `candidateKeys` when no baseline record is cached. -/
theorem candidateKeys_of_filter_nil {seed : ℤ} {rl : ReadLosses}
    (h : (get_list_of_sorted_preds rl).filter
      (fun x => decide (x.2.2 = 1)) = []) :
    candidateKeys seed rl = get_list_of_sorted_preds rl := by
  unfold candidateKeys
  rw [h]

/-- Unfolding of `candidateKeys` when a baseline record is cached. -/
theorem candidateKeys_of_filter_cons {seed : ℤ} {rl : ReadLosses}
    {dl : SK} {dls : List SK}
    (h : (get_list_of_sorted_preds rl).filter
      (fun x => decide (x.2.2 = 1)) = dl :: dls) :
    candidateKeys seed rl =
      if (nonDummyBetter (get_list_of_sorted_preds rl) dl).length = 0 then
        dummyFallback seed rl
      else nonDummyBetter (get_list_of_sorted_preds rl) dl := by
  unfold candidateKeys
  rw [h]

/-- C1: whenever `get_n_best_preds` sets `max_resident_models = m`, its
returned candidate list has length at most `m`, and a run of
`_delete_excess_models` in the same iteration never attempts to delete the
baseline artifact (`run_id == 1`) and never attempts to delete a returned
candidate — each candidate is either inside the protected top-`m` prefix
of the loss-sorted keys or is itself a baseline record.  Hypotheses:
record fields agree with the path they were parsed from
(`compute_loss_per_model` creates every record that way), run ids are at
least 1 ("dummy model must have run_id=1; there is no run_id=0",
line 1047), and an integral `ensemble_nbest` is nonnegative (constructor
validation plus the degradation policy). -/
theorem resident_bound_and_delete_safety (cfg : Config) (rl : ReadLosses)
    (files hbc : List PredPath) (cands : List PredPath) (m : ℕ)
    (hnum : ∀ kv ∈ rl, kv.2.numRun = kv.1.numRun)
    (hrun1 : ∀ kv ∈ rl, 1 ≤ kv.2.numRun)
    (hnbest : ∀ n, cfg.ensemble_nbest = .int n → 0 ≤ n)
    (hok : get_n_best_preds cfg rl = .ok (cands, some m)) :
    cands.length ≤ m ∧
    ∀ p ∈ delete_excess_models rl files hbc (some m),
      p.numRun ≠ 1 ∧ p ∉ cands := by
  rcases get_n_best_preds_ok_iff.mp hok with ⟨mres, keep2, hd, hp, hout⟩
  rw [Prod.mk.injEq] at hout
  rcases hout with ⟨hcands, hmres⟩
  subst hcands
  cases hmres
  have hk0 : 0 ≤ keepNBest cfg.ensemble_nbest (candidateKeys cfg.seed rl).length :=
    keepNBest_nonneg hnbest
  rcases clampKeep_some_bound m _ hk0 with ⟨hk1a, hk1b⟩
  rcases perfRange_ok_bound hk1a hp with ⟨hk2a, hk2b⟩
  have hk2m : keep2 ≤ (m : ℤ) := le_trans hk2b hk1b
  have hk2mn : keep2.toNat ≤ m := by omega
  refine ⟨?_, ?_⟩
  · have := length_pyTake_le ((candidateKeys cfg.seed rl).map Prod.fst) keep2 hk2a
    omega
  intro p hdel
  simp only [delete_excess_models] at hdel
  split at hdel
  · exact absurd hdel (List.not_mem_nil p)
  · rcases List.mem_filter.mp hdel with ⟨hpf, hcond⟩
    rw [Bool.and_eq_true, Bool.and_eq_true, decide_eq_true_eq,
      decide_eq_true_eq, decide_eq_true_eq] at hcond
    rcases hcond with ⟨⟨hnotc, hnothbc⟩, hnr1⟩
    refine ⟨hnr1, ?_⟩
    intro hpc
    rw [pyTake_of_nonneg _ _ hk2a, ← List.map_take] at hpc
    rcases List.mem_map.mp hpc with ⟨x, hx, rfl⟩
    cases hdum : (get_list_of_sorted_preds rl).filter
        (fun x => decide (x.2.2 = 1)) with
    | nil =>
      rw [candidateKeys_of_filter_nil hdum] at hx
      apply hnotc
      rw [← List.map_take]
      exact List.mem_map_of_mem Prod.fst (mem_take_of_le hk2mn hx)
    | cons dl dls =>
      rw [candidateKeys_of_filter_cons hdum] at hx
      have hrun1s : ∀ y ∈ get_list_of_sorted_preds rl, 1 ≤ y.2.2 := by
        intro y hy
        rcases mem_get_list_of_sorted_preds.mp hy with ⟨kv, hkv, rfl⟩
        exact hrun1 kv hkv
      split at hx
      · have hxf : x ∈ dummyFallback cfg.seed rl := List.take_subset _ _ hx
        rcases List.mem_filterMap.mp hxf with ⟨kv, hkv, hfkv⟩
        split at hfkv
        · rename_i hcd
          cases hfkv
          apply hnr1
          rw [← hnum kv hkv]
          exact hcd.2
        · exact absurd hfkv (by simp)
      · rw [nonDummyBetter_eq_take hrun1s hdum, List.take_take] at hx
        apply hnotc
        rw [← List.map_take]
        exact List.mem_map_of_mem Prod.fst
          (mem_take_of_le (le_trans (min_le_left _ _) hk2mn) hx)

/-- Witness instantiating the C1 theorem on a concrete cache with
`max_resident_models = 1`. -/
theorem resident_bound_and_delete_safety_witness :
    ([pathC1 2] : List PredPath).length ≤ 1 ∧
    ∀ p ∈ delete_excess_models rlC1 [pathC1 2, pathC1 3, pathC1 4] []
        (some 1), p.numRun ≠ 1 ∧ p ∉ [pathC1 2] :=
  resident_bound_and_delete_safety cfgC1 rlC1
    [pathC1 2, pathC1 3, pathC1 4] [] [pathC1 2] 1
    (by decide) (by decide)
    (by intro n h; cases h; decide)
    (by with_unfolding_all rfl)

/-! ### Claim C4: the baseline filter and its fallback -/

theorem pyTake_subset {α : Type} (l : List α) (i : ℤ) : pyTake l i ⊆ l := by
  unfold pyTake
  split <;> exact List.take_subset _ _

theorem pyTake_eq_take {α : Type} (l : List α) (i : ℤ) :
    ∃ n, pyTake l i = l.take n := by
  unfold pyTake
  split
  · exact ⟨i.toNat, rfl⟩
  · exact ⟨((l.length : ℤ) + i).toNat, rfl⟩

/-- With unique cache keys, a sorted triple is determined by its path. -/
theorem sorted_triple_eq_of_fst_eq {rl : ReadLosses}
    (hnodup : (rl.map Prod.fst).Nodup)
    {x : SK} (hx : x ∈ get_list_of_sorted_preds rl)
    {kv : PredPath × LossRecord} (hkv : kv ∈ rl) (heq : x.1 = kv.1) :
    x = (kv.1, kv.2.ens_loss, kv.2.numRun) := by
  rcases mem_get_list_of_sorted_preds.mp hx with ⟨kv', hkv', rfl⟩
  have : kv' = kv := List.inj_on_of_nodup_map hnodup hkv' hkv heq
  rw [this]

/-- C4, counterexample: in the fallback case the returned candidates are
not "exactly the baseline records": with two cached baselines and
`ensemble_nbest = 1` the baseline pool is `[pathC4a, pathC4b]` but only
`[pathC4a]` is returned (the pool is still truncated to `keep_n`). -/
theorem get_n_best_preds_fallback_truncated :
    get_n_best_preds cfgC4 rlC4 = .ok ([pathC4a], Option.none) ∧
    (dummyFallback 0 rlC4).map Prod.fst = [pathC4a, pathC4b] ∧
    pathC4b ∉ ([pathC4a] : List PredPath) := by
  refine ⟨by with_unfolding_all rfl, by with_unfolding_all rfl, by decide⟩

/-- C4, amended: when a baseline record exists (least baseline entry
`dl`), every returned candidate's record has loss strictly below the
baseline loss and is not itself a baseline — or no record beats the
baseline, and the returned list is a prefix (the `keep_n`-prefix) of
exactly the baseline records of the configured seed, in cache order. -/
theorem baseline_filter_and_fallback (cfg : Config) (rl : ReadLosses)
    (cands : List PredPath) (mres : Option ℕ) (dl : SK) (dls : List SK)
    (hnodup : (rl.map Prod.fst).Nodup)
    (hdum : (get_list_of_sorted_preds rl).filter
      (fun x => decide (x.2.2 = 1)) = dl :: dls)
    (hok : get_n_best_preds cfg rl = .ok (cands, mres)) :
    (∀ kv ∈ rl, kv.1 ∈ cands →
        Loss.ltb kv.2.ens_loss dl.2.1 = true ∧ kv.2.numRun ≠ 1)
    ∨ ((nonDummyBetter (get_list_of_sorted_preds rl) dl).length = 0 ∧
        ∃ n, cands = ((dummyFallback cfg.seed rl).map Prod.fst).take n) := by
  rcases get_n_best_preds_ok_iff.mp hok with ⟨mres', keep2, hd, hp, hout⟩
  rw [Prod.mk.injEq] at hout
  rcases hout with ⟨hcands, hmres⟩
  subst hcands
  rw [candidateKeys_of_filter_cons hdum]
  by_cases hz : (nonDummyBetter (get_list_of_sorted_preds rl) dl).length = 0
  · right
    refine ⟨hz, ?_⟩
    rw [if_pos hz]
    exact pyTake_eq_take _ _
  · left
    rw [if_neg hz]
    intro kv hkv hmem
    have hsub : kv.1 ∈ (nonDummyBetter (get_list_of_sorted_preds rl) dl).map
        Prod.fst := pyTake_subset _ _ hmem
    rcases List.mem_map.mp hsub with ⟨x, hxmem, hxeq⟩
    rcases List.mem_filter.mp hxmem with ⟨hx1, hxrun⟩
    rcases List.mem_filter.mp hx1 with ⟨hx0, hxloss⟩
    have hxkv : x = (kv.1, kv.2.ens_loss, kv.2.numRun) :=
      sorted_triple_eq_of_fst_eq hnodup hx0 hkv hxeq
    rw [hxkv] at hxloss hxrun
    refine ⟨hxloss, ?_⟩
    have : 1 < kv.2.numRun := by simpa using hxrun
    omega

/-- Witness instantiating the amended C4 theorem on a cache where one
model beats the baseline. -/
theorem baseline_filter_and_fallback_witness :
    (∀ kv ∈ rlC4w, kv.1 ∈ ([pathC4c] : List PredPath) →
        Loss.ltb kv.2.ens_loss (Loss.fin 2) = true ∧ kv.2.numRun ≠ 1)
    ∨ ((nonDummyBetter (get_list_of_sorted_preds rlC4w)
          (pathC4a, Loss.fin 2, 1)).length = 0 ∧
        ∃ n, ([pathC4c] : List PredPath)
          = ((dummyFallback 0 rlC4w).map Prod.fst).take n) :=
  baseline_filter_and_fallback ⟨0, .int 1, .noLimit, 0⟩ rlC4w [pathC4c]
    Option.none (pathC4a, Loss.fin 2, 1) [] (by decide)
    (by with_unfolding_all rfl) (by with_unfolding_all rfl)

/-! ### Claim C10: the `read_at_most` cap counts only successful reads -/

theorem find?_map_overwrite {l : ReadLosses} {k k' : PredPath}
    {r : LossRecord} (hne : k' ≠ k) :
    (l.map (fun kv => if kv.1 == k then (k, r) else kv)).find?
      (fun kv => kv.1 == k') = l.find? (fun kv => kv.1 == k') := by
  induction l with
  | nil => rfl
  | cons kv tl ih =>
    rw [List.map_cons]
    by_cases h : kv.1 = k
    · rw [if_pos (by simp [h]), List.find?_cons_of_neg _ (by simp [Ne.symm hne]),
        List.find?_cons_of_neg _ (by simp [h, Ne.symm hne])]
      exact ih
    · rw [if_neg (by simp [h])]
      by_cases h2 : kv.1 = k'
      · rw [List.find?_cons_of_pos _ (by simp [h2]),
          List.find?_cons_of_pos _ (by simp [h2])]
      · rw [List.find?_cons_of_neg _ (by simp [h2]),
          List.find?_cons_of_neg _ (by simp [h2])]
        exact ih

theorem find?_map_overwrite_self {l : ReadLosses} {k : PredPath}
    {r : LossRecord} (hany : l.any (fun kv => kv.1 == k) = true) :
    (l.map (fun kv => if kv.1 == k then (k, r) else kv)).find?
      (fun kv => kv.1 == k) = some (k, r) := by
  induction l with
  | nil => simp at hany
  | cons kv tl ih =>
    rw [List.map_cons]
    by_cases h : kv.1 = k
    · rw [if_pos (by simp [h]), List.find?_cons_of_pos _ (by simp)]
    · rw [if_neg (by simp [h]), List.find?_cons_of_neg _ (by simp [h])]
      rw [List.any_cons] at hany
      exact ih (by simpa [h] using hany)

theorem find?_append_single_ne {l : ReadLosses} {k k' : PredPath}
    {r : LossRecord} (hne : k' ≠ k) :
    (l ++ [(k, r)]).find? (fun kv => kv.1 == k')
      = l.find? (fun kv => kv.1 == k') := by
  induction l with
  | nil =>
    rw [List.nil_append, List.find?_cons_of_neg _ (by simp [Ne.symm hne])]
  | cons kv tl ih =>
    rw [List.cons_append]
    by_cases h2 : kv.1 = k'
    · rw [List.find?_cons_of_pos _ (by simp [h2]),
        List.find?_cons_of_pos _ (by simp [h2])]
    · rw [List.find?_cons_of_neg _ (by simp [h2]),
        List.find?_cons_of_neg _ (by simp [h2])]
      exact ih

theorem find?_append_single_self {l : ReadLosses} {k : PredPath}
    {r : LossRecord} (hany : l.any (fun kv => kv.1 == k) = false) :
    (l ++ [(k, r)]).find? (fun kv => kv.1 == k) = some (k, r) := by
  induction l with
  | nil => rw [List.nil_append, List.find?_cons_of_pos _ (by simp)]
  | cons kv tl ih =>
    rw [List.any_cons, Bool.or_eq_false_iff] at hany
    rw [List.cons_append, List.find?_cons_of_neg _ (by simp [hany.1])]
    exact ih hany.2

/-- Writing a key then reading it back yields the written record. -/
theorem dictGet_dictSet_self (rl : ReadLosses) (k : PredPath)
    (r : LossRecord) : dictGet (dictSet rl k r) k = some r := by
  unfold dictGet dictSet
  by_cases hany : rl.any (fun kv => kv.1 == k) = true
  · rw [if_pos hany, find?_map_overwrite_self hany]
    rfl
  · rw [if_neg hany, find?_append_single_self (Bool.not_eq_true _ ▸ hany)]
    rfl

/-- Writing one key leaves every other key's record unchanged. -/
theorem dictGet_dictSet_ne (rl : ReadLosses) {k k' : PredPath}
    (r : LossRecord) (hne : k' ≠ k) :
    dictGet (dictSet rl k r) k' = dictGet rl k' := by
  unfold dictGet dictSet
  by_cases hany : rl.any (fun kv => kv.1 == k) = true
  · rw [if_pos hany, find?_map_overwrite hne]
  · rw [if_neg hany, find?_append_single_ne hne]

theorem processFile_eq_of_get_some {rl : ReadLosses} {f : EnsFile}
    {r0 : LossRecord} (hg : dictGet rl f.path = some r0) :
    processFile rl f = processRead rl f r0 := by
  unfold processFile
  rw [hg]

/-- Processing a changed-and-failing or an unchanged file never increments
`n_read_files`; it touches no other path's record, and a changed-failing
file ends with `ens_loss = ∞`. -/
theorem processFile_not_counted {rl : ReadLosses} {f : EnsFile}
    (h : changedFail rl f ∨ unchangedF rl f) :
    ∃ rl2, processFile rl f = (rl2, false) ∧
      (∀ p, p ≠ f.path → dictGet rl2 p = dictGet rl p) ∧
      (changedFail rl f →
        ∃ r1, dictGet rl2 f.path = some r1 ∧ r1.ens_loss = Loss.inf) := by
  have hr0 : ∃ r0, dictGet rl f.path = some r0 := by
    rcases h with ⟨_, r0, hg, _⟩ | ⟨r0, hg, _⟩ <;> exact ⟨r0, hg⟩
  rcases hr0 with ⟨r0, hg⟩
  rw [processFile_eq_of_get_some hg]
  unfold processRead
  by_cases hmt : r0.mtime_ens = f.mtime
  · refine ⟨rl, by rw [if_pos hmt], fun p _ => rfl, ?_⟩
    rintro ⟨-, r0', hg', hne'⟩
    rw [hg] at hg'
    cases hg'
    exact absurd hmt hne'
  · have hfail : f.outcome = .failure := by
      rcases h with ⟨hf, -⟩ | ⟨r0', hg', hmt'⟩
      · exact hf
      · rw [hg] at hg'
        cases hg'
        exact absurd hmt' hmt
    refine ⟨dictSet rl f.path { r0 with ens_loss := Loss.inf }, ?_, ?_, ?_⟩
    · rw [if_neg hmt, hfail]
    · intro p hp
      exact dictGet_dictSet_ne rl _ hp
    · intro _
      exact ⟨{ r0 with ens_loss := Loss.inf }, dictGet_dictSet_self rl _ _, rfl⟩

/-- `processFile` leaves every other path's record unchanged. -/
theorem processFile_untouched {rl : ReadLosses} {f : EnsFile}
    {p : PredPath} (hp : p ≠ f.path) :
    dictGet (processFile rl f).1 p = dictGet rl p := by
  unfold processFile
  cases hg : dictGet rl f.path with
  | some r0 =>
    show dictGet (processRead rl f r0).1 p = dictGet rl p
    unfold processRead
    split
    · rfl
    · split
      · exact dictGet_dictSet_ne rl _ hp
      · exact dictGet_dictSet_ne rl _ hp
  | none =>
    show dictGet (processRead (dictSet rl f.path (freshRecord f.path)) f
      (freshRecord f.path)).1 p = dictGet rl p
    unfold processRead
    split
    · exact dictGet_dictSet_ne rl _ hp
    · split
      · exact (dictGet_dictSet_ne _ _ hp).trans (dictGet_dictSet_ne rl _ hp)
      · exact (dictGet_dictSet_ne _ _ hp).trans (dictGet_dictSet_ne rl _ hp)

/-- The read loop leaves the record of any path outside the work list
untouched. -/
theorem computeLossLoop_untouched (cap : ℕ) :
    ∀ (files : List EnsFile) (rl : ReadLosses) (n : ℕ) (p : PredPath),
    p ∉ files.map EnsFile.path →
    dictGet (computeLossLoop cap rl files n).1 p = dictGet rl p := by
  intro files
  induction files with
  | nil => intro rl n p _; rfl
  | cons f fs ih =>
    intro rl n p hp
    rw [List.map_cons, List.mem_cons, not_or] at hp
    rw [computeLossLoop]
    split
    · rfl
    · rw [ih _ _ _ hp.2]
      exact processFile_untouched hp.1

/-- Main loop invariant for C10: a work list of only changed-failing or
unchanged files is processed in its entirety (the break never fires since
nothing counts toward the cap), `n_read_files` never moves, and every
changed-failing file's record ends at `ens_loss = ∞`. -/
theorem computeLossLoop_no_count (cap : ℕ) :
    ∀ (files : List EnsFile) (rl : ReadLosses) (n : ℕ),
    (files.map EnsFile.path).Nodup →
    (∀ f ∈ files, changedFail rl f ∨ unchangedF rl f) →
    cap = 0 ∨ n < cap →
    (computeLossLoop cap rl files n).2 = n ∧
    ∀ f ∈ files, changedFail rl f →
      ∃ r1, dictGet (computeLossLoop cap rl files n).1 f.path = some r1 ∧
        r1.ens_loss = Loss.inf := by
  intro files
  induction files with
  | nil =>
    intro rl n _ _ _
    exact ⟨rfl, by intro f hf; exact absurd hf (List.not_mem_nil f)⟩
  | cons f fs ih =>
    intro rl n hnodup hcases hcap
    rw [List.map_cons, List.nodup_cons] at hnodup
    rcases processFile_not_counted (hcases f (List.mem_cons_self f fs)) with
      ⟨rl2, hpf, hother, hinf⟩
    have hfs : ∀ g ∈ fs, g.path ≠ f.path := by
      intro g hg hgp
      exact hnodup.1 (hgp ▸ List.mem_map_of_mem EnsFile.path hg)
    have hcases2 : ∀ g ∈ fs, changedFail rl2 g ∨ unchangedF rl2 g := by
      intro g hg
      have hgget : dictGet rl2 g.path = dictGet rl g.path :=
        hother g.path (hfs g hg)
      rcases hcases g (List.mem_cons_of_mem f hg) with ⟨hf', r0, hg', hm'⟩ | ⟨r0, hg', hm'⟩
      · exact Or.inl ⟨hf', r0, by rw [hgget]; exact hg', hm'⟩
      · exact Or.inr ⟨r0, by rw [hgget]; exact hg', hm'⟩
    have hrun : computeLossLoop cap rl (f :: fs) n
        = computeLossLoop cap rl2 fs n := by
      rw [computeLossLoop]
      rw [if_neg (by omega : ¬ (cap ≠ 0 ∧ cap ≤ n)), hpf]
      rfl
    rcases ih rl2 n hnodup.2 hcases2 hcap with ⟨hcount, hrest⟩
    refine ⟨by rw [hrun]; exact hcount, ?_⟩
    intro g hg hcg
    rcases List.mem_cons.mp hg with rfl | hg'
    · rcases hinf hcg with ⟨r1, hr1, hr1inf⟩
      refine ⟨r1, ?_, hr1inf⟩
      rw [hrun, computeLossLoop_untouched cap fs rl2 n g.path ?_, hr1]
      intro hmem
      rcases List.mem_map.mp hmem with ⟨g', hg', hg'eq⟩
      exact hfs g' hg' hg'eq
    · have hcg2 : changedFail rl2 g := by
        rcases hcg with ⟨hf', r0, hg'', hm'⟩
        exact ⟨hf', r0, by
          rw [hother g.path (hfs g hg')]; exact hg'', hm'⟩
      rw [hrun]
      exact hrest g hg' hcg2

/-- C10: the `read_at_most` cap of `compute_loss_per_model` counts only
artifacts successfully decoded and scored in this call: files skipped
because their modification time is unchanged, and files whose decode or
metric computation raises (which get `ens_loss = ∞`), do not count toward
the cap.  Hence a single call may process arbitrarily many unchanged or
failing artifacts beyond `read_at_most`: for a work list of only such
files — of any length, under any cap — the loop reaches every file,
`n_read_files` stays 0, and every changed-failing file's record is reset
to ∞. -/
theorem read_at_most_counts_only_successful_reads (cap : ℕ)
    (rl : ReadLosses) (to_read : List EnsFile)
    (hnodup : (to_read.map EnsFile.path).Nodup)
    (hcases : ∀ f ∈ to_read, changedFail rl f ∨ unchangedF rl f) :
    (compute_loss_per_model cap rl to_read).2 = 0 ∧
    ∀ f ∈ to_read, changedFail rl f →
      ∃ r1, dictGet (compute_loss_per_model cap rl to_read).1 f.path
        = some r1 ∧ r1.ens_loss = Loss.inf := by
  have hperm : (List.insertionSort
      (fun a b => a.path.numRun ≤ b.path.numRun) to_read).Perm to_read :=
    List.perm_insertionSort _ _
  have hnodup2 : ((List.insertionSort
      (fun a b => a.path.numRun ≤ b.path.numRun) to_read).map
      EnsFile.path).Nodup := ((hperm.map EnsFile.path).nodup_iff).mpr hnodup
  have hcases2 : ∀ f ∈ List.insertionSort
      (fun a b => a.path.numRun ≤ b.path.numRun) to_read,
      changedFail rl f ∨ unchangedF rl f :=
    fun f hf => hcases f (hperm.mem_iff.mp hf)
  have h := computeLossLoop_no_count cap
    (List.insertionSort (fun a b => a.path.numRun ≤ b.path.numRun) to_read)
    rl 0 hnodup2 hcases2 (Nat.eq_zero_or_pos cap)
  exact ⟨h.1, fun f hf hc => h.2 f (hperm.mem_iff.mpr hf) hc⟩

/-- Witness instantiating the C10 theorem: with `read_at_most = 1`, both
(> `read_at_most`) failing files are processed and none counts. -/
theorem read_at_most_counts_only_successful_reads_witness :
    (compute_loss_per_model 1 rlC10 [fC10 2, fC10 3]).2 = 0 ∧
    ∀ f ∈ [fC10 2, fC10 3], changedFail rlC10 f →
      ∃ r1, dictGet (compute_loss_per_model 1 rlC10 [fC10 2, fC10 3]).1 f.path
        = some r1 ∧ r1.ens_loss = Loss.inf :=
  read_at_most_counts_only_successful_reads 1 rlC10 [fC10 2, fC10 3]
    (by decide)
    (by
      intro f hf
      rcases List.mem_cons.mp hf with rfl | hf2
      · exact Or.inl ⟨rfl, ⟨Loss.fin 1, 5, 0, 2, 50, some 4, 0⟩,
          by with_unfolding_all rfl, by decide⟩
      · rcases List.mem_singleton.mp hf2 with rfl
        exact Or.inl ⟨rfl, ⟨Loss.fin 2, 5, 0, 3, 50, some 4, 0⟩,
          by with_unfolding_all rfl, by decide⟩)

end EnsembleBuilder
